import Mathlib

/-!
Verification of the term-buffer append protocol (`aeron/logbuffer/term/appender.go`).

The Go code is embedded shallowly: the appender state (tail counter, term
capacity, cached header fields) is threaded explicitly, and every store the
code performs on the shared term buffer or on the tail counter is recorded,
in program order, as an event in a trace.  Go `int32`/`int64` arithmetic is
modelled on `Int` with explicit two's-complement wrap-around where the source
performs a machine operation.  Helper definitions from packages of this
repository that are not part of the source under verification
(`util.AlignInt32`, the `logbuffer` frame-header constants and accessors)
are modelled from the spec and marked as such in their doc comments.
-/

namespace AeronTerm

/-- Two's-complement wrap of an integer into the signed 32-bit range,
mirroring Go `int32` arithmetic. -/
def i32 (x : Int) : Int := (x + 2 ^ 31) % 2 ^ 32 - 2 ^ 31

/-- Two's-complement wrap of an integer into the signed 64-bit range,
mirroring Go `int64` arithmetic. -/
def i64 (x : Int) : Int := (x + 2 ^ 63) % 2 ^ 64 - 2 ^ 63

namespace DataFrameHeader

/-- Modelled from the spec (§6 binary frame layout): the fixed data-frame
header size in bytes, `logbuffer.DataFrameHeader.Length` (not under `src/`). -/
def Length : Int := 32

/-- Modelled from the spec (§6): byte offset of the 8-bit version field. -/
def VersionFieldOffset : Int := 4

/-- Modelled from the spec (§6): byte offset of the 8-bit flags field. -/
def FlagsFieldOffset : Int := 5

/-- Modelled from the spec (§6): byte offset of the 16-bit type field. -/
def TypeFieldOffset : Int := 6

/-- Modelled from the spec (§6): byte offset of the 32-bit term-offset field. -/
def TermOffsetFieldOffset : Int := 8

/-- Modelled from the spec (§6): byte offset of the 32-bit session-ID field. -/
def SessionIDFieldOffset : Int := 12

/-- Modelled from the spec (§6): byte offset of the 32-bit stream-ID field. -/
def StreamIDFieldOffset : Int := 16

/-- Modelled from the spec (§6): byte offset of the 32-bit term-ID field. -/
def TermIDFieldOffset : Int := 20

/-- Modelled from the spec (§6): byte offset of the 64-bit reserved-value field. -/
def ReservedValueFieldOffset : Int := 24

/-- Modelled from the spec (§3): the protocol version written into each header. -/
def CurrentVersion : Int := 0

/-- Modelled from the spec (§6): the 16-bit type code of a data frame. -/
def TypeData : Nat := 1

/-- Modelled from the spec (§6): the 16-bit type code of a padding frame. -/
def TypePad : Nat := 0

end DataFrameHeader

/-- Modelled from the spec (§3, §6): `logbuffer.FrameAlignment` (not under
`src/`), the fixed power-of-two frame alignment; the spec's worked scenario
(§8) fixes it at 32. -/
def FrameAlignment : Int := 32

/-- `AppenderTripped` is returned when the end of the term has been reached
and buffer roll was done. -/
def AppenderTripped : Int := -1

/-- `AppenderFailed` is returned when appending is not possible due to the
position being outside of the term. -/
def AppenderFailed : Int := -2

/-- Flags bit marking the first fragment of a message. -/
def beginFrag : Nat := 0x80

/-- Flags bit marking the last fragment of a message. -/
def endFrag : Nat := 0x40

/-- Flags byte of an unfragmented message: both fragment bits set. -/
def unfragmented : Nat := 0x80 ||| 0x40

/-- Modelled from the spec (§3, "All frames are aligned"): `util.AlignInt32`
(not under `src/`) rounds `value` up to the next multiple of the power-of-two
`alignment` by clearing the low bits of `value + (alignment - 1)`, with Go
`int32` wrap-around on the intermediate sum. -/
def Util.AlignInt32 (value alignment : Int) : Int :=
  (i32 (value + (alignment - 1))) - (i32 (value + (alignment - 1))) % alignment

/-- Modelled from the spec (§3, Tail Position): `logbuffer.TermID(rawTail)`
(not under `src/`) extracts the high 32 bits of the packed tail value as
`int32(rawTail >> 32)`; for `rawTail` in the `int64` range the arithmetic
shift already lands in the `int32` range, so the final cast is the identity
and the shift is floor division by `2^32`. -/
def Logbuffer.TermID (rawTail : Int) : Int := rawTail / 2 ^ 32

/-- Observable effects of the appender, in program order.  `putInt32Ordered`
is an ordered (release) 32-bit store to the term buffer; the other `put*`
events are plain stores; `putBytes off srcOff len` copies `len` payload bytes
from the source buffer at `srcOff` into the term buffer at `off`;
`getAndAddTail n` is the atomic fetch-and-add of `n` on the tail counter and
`setTail v` the plain set used only during term rotation. -/
inductive Ev where
  | getAndAddTail (n : Int)
  | setTail (v : Int)
  | putInt32Ordered (off v : Int)
  | putInt8 (off v : Int)
  | putUInt8 (off : Int) (v : Nat)
  | putUInt16 (off : Int) (v : Nat)
  | putInt32 (off v : Int)
  | putInt64 (off v : Int)
  | putBytes (off srcOff len : Int)
  deriving Repr, DecidableEq

/-- Modelled from the spec (§4.1/§5): `logbuffer.FrameLengthOrdered` (not
under `src/`) release-stores the final frame length at the frame's offset. -/
def Logbuffer.FrameLengthOrdered (frameOffset frameLength : Int) : Ev :=
  .putInt32Ordered frameOffset frameLength

/-- Modelled from the spec (§6): `logbuffer.SetFrameType` (not under `src/`)
stores the 16-bit frame-type field of the frame at `frameOffset`. -/
def Logbuffer.SetFrameType (frameOffset : Int) (t : Nat) : Ev :=
  .putUInt16 (frameOffset + DataFrameHeader.TypeFieldOffset) t

/-- Modelled from the spec (§6): `logbuffer.FrameFlags` (not under `src/`)
stores the 8-bit flags field of the frame at `frameOffset`. -/
def Logbuffer.FrameFlags (frameOffset : Int) (flags : Nat) : Ev :=
  .putUInt8 (frameOffset + DataFrameHeader.FlagsFieldOffset) flags

/-- `headerWriter` is a helper for writing frame headers to the term: it
caches the session and stream IDs read from the default header template. -/
structure headerWriter where
  sessionID : Int
  streamID : Int
  deriving Repr, DecidableEq

/-- The trace of `headerWriter.write(termBuffer, offset, length, termID)`:
an ordered store of the negated length, then the plain header-field stores.
The Go code re-wraps a buffer at `termBuffer + offset`, so each field lands
at `offset +` its field offset. -/
def headerWriter.write (header : headerWriter) (offset length termID : Int) : List Ev :=
  [.putInt32Ordered offset (i32 (-length)),
   .putInt8 (offset + DataFrameHeader.VersionFieldOffset) DataFrameHeader.CurrentVersion,
   .putUInt8 (offset + DataFrameHeader.FlagsFieldOffset) unfragmented,
   .putUInt16 (offset + DataFrameHeader.TypeFieldOffset) DataFrameHeader.TypeData,
   .putInt32 (offset + DataFrameHeader.TermOffsetFieldOffset) offset,
   .putInt32 (offset + DataFrameHeader.SessionIDFieldOffset) header.sessionID,
   .putInt32 (offset + DataFrameHeader.StreamIDFieldOffset) header.streamID,
   .putInt32 (offset + DataFrameHeader.TermIDFieldOffset) termID]

/-- The `Appender` state: the raw 64-bit tail-counter value, the term-buffer
capacity (`termBuffer.Capacity()`), and the cached header writer. -/
structure Appender where
  tail : Int
  capacity : Int
  headerWriter : headerWriter
  deriving Repr, DecidableEq

/-- `AppenderResult` is the `(termOffset, termID)` pair the append operations
fill in. -/
structure AppenderResult where
  termOffset : Int
  termID : Int
  deriving Repr, DecidableEq

/-- Modelled from the spec (§3, Claim): the `logbuffer.Claim` handle (not
under `src/`) wrapping the reserved range `[offset, offset + frameLength)`. -/
structure Logbuffer.Claim where
  offset : Int
  frameLength : Int
  deriving Repr, DecidableEq

/-- `RawTail` reads the raw tail-counter value. -/
def Appender.RawTail (appender : Appender) : Int := appender.tail

/-- `getAndAddRawTail` is the reservation primitive: it returns the
pre-addition raw tail and the state with the tail advanced by
`alignedLength` (64-bit wrap-around addition, as in Go). -/
def Appender.getAndAddRawTail (appender : Appender) (alignedLength : Int) :
    Int × Appender :=
  (appender.tail, { appender with tail := i64 (appender.tail + alignedLength) })

/-- `SetTailTermID` sets the tail counter to `int64(termID) << 32`. -/
def Appender.SetTailTermID (appender : Appender) (termID : Int) :
    Appender × List Ev :=
  ({ appender with tail := i64 (termID * 2 ^ 32) }, [.setTail (i64 (termID * 2 ^ 32))])

/-- `handleEndOfLogCondition(termID, termBuffer, termOffset, header,
termLength)` returns the sentinel outcome and the trace of buffer writes it
performs: nothing when `termOffset > termLength` (`AppenderFailed`), nothing
when `termOffset = termLength` (`AppenderTripped`), and a padding frame over
`[termOffset, termLength)` — header write, type overwritten to pad, length
release-published — when `termOffset < termLength` (`AppenderTripped`). -/
def handleEndOfLogCondition (termID termOffset : Int) (header : headerWriter)
    (termLength : Int) : Int × List Ev :=
  if termOffset ≤ termLength then
    if termOffset < termLength then
      (AppenderTripped,
       header.write termOffset (i32 (termLength - termOffset)) termID
         ++ [Logbuffer.SetFrameType termOffset DataFrameHeader.TypePad,
             Logbuffer.FrameLengthOrdered termOffset (i32 (termLength - termOffset))])
    else (AppenderTripped, [])
  else (AppenderFailed, [])

/-- `Claim` reserves space for a zero-copy send: it fetch-adds the aligned
length onto the tail, and either delegates to the end-of-log resolver or
writes the frame header and hands back a claim handle over the reserved
range.  Returns the result, the new state, the event trace and the wrapped
claim (none on the end-of-log path). -/
def Appender.Claim (appender : Appender) (length : Int) :
    AppenderResult × Appender × List Ev × Option Logbuffer.Claim :=
  let frameLength := i32 (length + DataFrameHeader.Length)
  let alignedLength := Util.AlignInt32 frameLength FrameAlignment
  let (rawTail, appender') := appender.getAndAddRawTail alignedLength
  let termOffset := rawTail % 2 ^ 32
  let termLength := appender.capacity
  let termID := Logbuffer.TermID rawTail
  -- the int64 sum below cannot overflow: 0 ≤ termOffset < 2^32 and
  -- |alignedLength| ≤ 2^31
  if termOffset + alignedLength > termLength then
    let resolved := handleEndOfLogCondition termID (i32 termOffset)
      appender.headerWriter termLength
    (⟨resolved.1, termID⟩, appender',
     .getAndAddTail alignedLength :: resolved.2, none)
  else
    let offset := i32 termOffset
    (⟨termOffset + alignedLength, termID⟩, appender',
     .getAndAddTail alignedLength :: appender.headerWriter.write offset frameLength termID,
     some ⟨offset, frameLength⟩)

/-- `AppendUnfragmentedMessage` appends a single-frame message: reservation,
then on the in-bounds path header write, payload copy, optional reserved
value (skipped when the supplier is `none`, i.e. Go `nil`), and the ordered
release store of the final frame length. -/
def Appender.AppendUnfragmentedMessage (appender : Appender)
    (srcOffset length : Int) (reservedValueSupplier : Option (Int → Int → Int)) :
    AppenderResult × Appender × List Ev :=
  let frameLength := i32 (length + DataFrameHeader.Length)
  let alignedLength := Util.AlignInt32 frameLength FrameAlignment
  let (rawTail, appender') := appender.getAndAddRawTail alignedLength
  let termOffset := rawTail % 2 ^ 32
  let termLength := appender.capacity
  let termID := Logbuffer.TermID rawTail
  if termOffset + alignedLength > termLength then
    let resolved := handleEndOfLogCondition termID (i32 termOffset)
      appender.headerWriter termLength
    (⟨resolved.1, termID⟩, appender', .getAndAddTail alignedLength :: resolved.2)
  else
    let offset := i32 termOffset
    let reservedEvs : List Ev :=
      match reservedValueSupplier with
      | none => []
      | some f =>
        [.putInt64 (i32 (offset + DataFrameHeader.ReservedValueFieldOffset))
          (f offset frameLength)]
    (⟨termOffset + alignedLength, termID⟩, appender',
     .getAndAddTail alignedLength
       :: appender.headerWriter.write offset frameLength termID
       ++ [.putBytes (i32 (offset + DataFrameHeader.Length)) srcOffset length]
       ++ reservedEvs
       ++ [Logbuffer.FrameLengthOrdered offset frameLength])

/-- Outcome of the fragmentation loop body: it either runs to completion or
stops by dereferencing a `nil` reserved-value supplier (a Go panic); in both
cases the events written up to that point are recorded. -/
inductive LoopResult where
  | done (evs : List Ev)
  | nilSupplier (evs : List Ev)
  deriving Repr, DecidableEq

/-- The `for remaining > 0` loop of `AppendFragmentedMessage`, with explicit
fuel (the loop need not terminate for non-positive `maxPayloadLength`; `none`
models non-termination).  The source computes `bytesToWrite` as
`int32(math.Min(float64(remaining), float64(maxPayloadLength)))`; `float64`
conversion is exact for `int32` values, so this is `min`.  Each iteration writes a header, copies at most
`maxPayloadLength` payload bytes, stores the flags byte, calls the supplier —
dereferencing `nil` when it is absent — stores the reserved value and
release-publishes the frame length, then advances by the aligned length. -/
def fragLoop (header : headerWriter) (termID srcOffset length maxPayloadLength : Int)
    (reservedValueSupplier : Option (Int → Int → Int)) :
    Nat → Nat → Int → Int → Option LoopResult
  | 0, _, _, _ => none
  | fuel + 1, flags, remaining, offset =>
    if remaining > 0 then
      let bytesToWrite := min remaining maxPayloadLength
      let frameLength := i32 (bytesToWrite + DataFrameHeader.Length)
      let alignedLength := Util.AlignInt32 frameLength FrameAlignment
      let evs :=
        header.write offset frameLength termID
          ++ [.putBytes (i32 (offset + DataFrameHeader.Length))
                (i32 (srcOffset + i32 (length - remaining))) bytesToWrite]
          ++ [Logbuffer.FrameFlags offset
                (if remaining ≤ maxPayloadLength then flags ||| endFrag else flags)]
      match reservedValueSupplier with
      | none => some (.nilSupplier evs)
      | some f =>
        let evs := evs
          ++ [.putInt64 (i32 (offset + DataFrameHeader.ReservedValueFieldOffset))
                (f offset frameLength),
              Logbuffer.FrameLengthOrdered offset frameLength]
        match fragLoop header termID srcOffset length maxPayloadLength
            reservedValueSupplier fuel 0 (i32 (remaining - bytesToWrite))
            (i32 (offset + alignedLength)) with
        | none => none
        | some (.done rest) => some (.done (evs ++ rest))
        | some (.nilSupplier rest) => some (.nilSupplier (evs ++ rest))
    else some (.done [])

/-- `AppendFragmentedMessage` reserves the whole required length for all
fragments in one fetch-and-add and then runs the fragmentation loop.  The
outer `none` models a Go panic from division by zero (`maxPayloadLength = 0`)
or non-termination of the loop; the final `Bool` is `true` when the loop
panicked by calling a `nil` reserved-value supplier. -/
def Appender.AppendFragmentedMessage (appender : Appender)
    (srcOffset length maxPayloadLength : Int)
    (reservedValueSupplier : Option (Int → Int → Int)) :
    Option (AppenderResult × Appender × List Ev × Bool) :=
  if maxPayloadLength = 0 then none
  else
    let numMaxPayloads := length.tdiv maxPayloadLength
    let remainingPayload := length.tmod maxPayloadLength
    let lastFrameLength : Int :=
      if remainingPayload > 0 then
        Util.AlignInt32 (i32 (remainingPayload + DataFrameHeader.Length)) FrameAlignment
      else 0
    let requiredLength :=
      i32 (i32 (numMaxPayloads * i32 (maxPayloadLength + DataFrameHeader.Length))
        + lastFrameLength)
    let (rawTail, appender') := appender.getAndAddRawTail requiredLength
    let termOffset := rawTail % 2 ^ 32
    let termLength := appender.capacity
    let termID := Logbuffer.TermID rawTail
    if termOffset + requiredLength > termLength then
      let resolved := handleEndOfLogCondition termID (i32 termOffset)
        appender.headerWriter termLength
      some (⟨resolved.1, termID⟩, appender',
        .getAndAddTail requiredLength :: resolved.2, false)
    else
      match fragLoop appender.headerWriter termID srcOffset length maxPayloadLength
          reservedValueSupplier (length.toNat + 1) beginFrag length (i32 termOffset) with
      | none => none
      | some (.done evs) =>
        some (⟨termOffset + requiredLength, termID⟩, appender',
          .getAndAddTail requiredLength :: evs, false)
      | some (.nilSupplier evs) =>
        some (⟨termOffset + requiredLength, termID⟩, appender',
          .getAndAddTail requiredLength :: evs, true)

/-! Observations over event traces.  These extract, in program order, the
events of one kind; claims about what an operation writes are stated through
them. -/

/-- Lengths of the payload copies (`putBytes`) in a trace, in order. -/
def payloadLens (tr : List Ev) : List Int :=
  tr.filterMap fun e => match e with
    | .putBytes _ _ len => some len
    | _ => none

/-- Offsets at which a frame reservation marker (an ordered store of a
negative frame length) is written, in order: one per frame started. -/
def frameStarts (tr : List Ev) : List Int :=
  tr.filterMap fun e => match e with
    | .putInt32Ordered off v => if v < 0 then some off else none
    | _ => none

/-- All 8-bit stores `(offset, value)` in a trace, in order. -/
def u8Writes (tr : List Ev) : List (Int × Nat) :=
  tr.filterMap fun e => match e with
    | .putUInt8 off v => some (off, v)
    | _ => none

/-- All 16-bit stores `(offset, value)` in a trace, in order. -/
def u16Writes (tr : List Ev) : List (Int × Nat) :=
  tr.filterMap fun e => match e with
    | .putUInt16 off v => some (off, v)
    | _ => none

/-- All plain 32-bit stores `(offset, value)` in a trace, in order. -/
def i32Writes (tr : List Ev) : List (Int × Int) :=
  tr.filterMap fun e => match e with
    | .putInt32 off v => some (off, v)
    | _ => none

/-- All ordered (release) 32-bit stores `(offset, value)` in a trace. -/
def orderedWrites (tr : List Ev) : List (Int × Int) :=
  tr.filterMap fun e => match e with
    | .putInt32Ordered off v => some (off, v)
    | _ => none

/-- All 64-bit stores `(offset, value)` in a trace: exactly the
reserved-value stores. -/
def reservedStores (tr : List Ev) : List (Int × Int) :=
  tr.filterMap fun e => match e with
    | .putInt64 off v => some (off, v)
    | _ => none

/-- The amounts fetch-and-added onto the tail counter, in order. -/
def tailAdds (tr : List Ev) : List Int :=
  tr.filterMap fun e => match e with
    | .getAndAddTail n => some n
    | _ => none

/-- The plain sets of the tail counter, in order. -/
def tailSets (tr : List Ev) : List Int :=
  tr.filterMap fun e => match e with
    | .setTail v => some v
    | _ => none

/-- Number of frames of one fragmented message: `⌈r / m⌉` for payload `r`
and maximum fragment payload `m`. -/
def numFrames (r m : Nat) : Nat := (r + m - 1) / m

/-- The flags bytes of the successive frames the fragmentation loop emits
when entered with current flags `flags` and `n` frames still to write: the
last frame gets `endFrag` or-ed in, and every frame after the first is
written with flags `0`. -/
def fragFlagsList (flags : Nat) : Nat → List Nat
  | 0 => []
  | 1 => [flags ||| endFrag]
  | n + 2 => flags :: fragFlagsList 0 (n + 1)

/-! Arithmetic helper lemmas. -/

theorem i32_eq_of {x : Int} (h1 : -2 ^ 31 ≤ x) (h2 : x < 2 ^ 31) : i32 x = x := by
  unfold i32; omega

theorem i32_bounds (x : Int) : -2 ^ 31 ≤ i32 x ∧ i32 x < 2 ^ 31 := by
  unfold i32; omega

theorem align32_eq {v : Int} (h1 : -2 ^ 31 ≤ v + 31) (h2 : v + 31 < 2 ^ 31) :
    Util.AlignInt32 v 32 = v + 31 - (v + 31) % 32 := by
  unfold Util.AlignInt32
  rw [show v + (32 - 1) = v + 31 by ring, i32_eq_of h1 h2]

theorem align32_bounds {v : Int} (h0 : 0 ≤ v) (h2 : v + 31 < 2 ^ 31) :
    v ≤ Util.AlignInt32 v 32 ∧ Util.AlignInt32 v 32 < v + 32 ∧
      0 ≤ Util.AlignInt32 v 32 := by
  rw [align32_eq (by omega) h2]
  omega

theorem handleEOL_lt (termID termOffset termLength : Int) (header : headerWriter)
    (h0 : 0 ≤ termOffset) (h2 : termLength < 2 ^ 31) (hlt : termOffset < termLength) :
    handleEndOfLogCondition termID termOffset header termLength =
      (AppenderTripped,
       header.write termOffset (termLength - termOffset) termID
         ++ [Logbuffer.SetFrameType termOffset DataFrameHeader.TypePad,
             Logbuffer.FrameLengthOrdered termOffset (termLength - termOffset)]) := by
  have hid : i32 (termLength - termOffset) = termLength - termOffset :=
    i32_eq_of (by omega) (by omega)
  unfold handleEndOfLogCondition
  rw [if_pos (by omega), if_pos hlt, hid]

/-- Claim C1: for every call to `handleEndOfLogCondition`: if
`termOffset > termLength` it returns `AppenderFailed` and writes nothing; if
`termOffset = termLength` it returns `AppenderTripped` and writes no padding
frame; if `termOffset < termLength` it writes exactly one padding frame of
type pad spanning `[termOffset, termLength)` (one frame started, at
`termOffset`, its type field ending as `TypePad`), publishes its length
(ordered store of `termLength - termOffset` at `termOffset`, last in the
trace), and returns `AppenderTripped`. -/
theorem claim1_end_of_log_outcomes (termID termOffset termLength : Int)
    (header : headerWriter) (h0 : 0 ≤ termOffset) (h2 : termLength < 2 ^ 31) :
    (termLength < termOffset →
      handleEndOfLogCondition termID termOffset header termLength =
        (AppenderFailed, [])) ∧
    (termOffset = termLength →
      handleEndOfLogCondition termID termOffset header termLength =
        (AppenderTripped, [])) ∧
    (termOffset < termLength →
      handleEndOfLogCondition termID termOffset header termLength =
        (AppenderTripped,
         header.write termOffset (termLength - termOffset) termID
           ++ [Logbuffer.SetFrameType termOffset DataFrameHeader.TypePad,
               Logbuffer.FrameLengthOrdered termOffset (termLength - termOffset)]) ∧
      frameStarts (handleEndOfLogCondition termID termOffset header termLength).2 =
        [termOffset] ∧
      u16Writes (handleEndOfLogCondition termID termOffset header termLength).2 =
        [(termOffset + DataFrameHeader.TypeFieldOffset, DataFrameHeader.TypeData),
         (termOffset + DataFrameHeader.TypeFieldOffset, DataFrameHeader.TypePad)] ∧
      (handleEndOfLogCondition termID termOffset header termLength).2.getLast? =
        some (Logbuffer.FrameLengthOrdered termOffset (termLength - termOffset))) := by
  refine ⟨?_, ?_, ?_⟩
  · intro h
    unfold handleEndOfLogCondition
    rw [if_neg (by omega)]
  · intro h
    unfold handleEndOfLogCondition
    rw [if_pos (by omega), if_neg (by omega)]
  · intro hlt
    have htr := handleEOL_lt termID termOffset termLength header h0 h2 hlt
    have hneg : i32 (termOffset - termLength) = termOffset - termLength :=
      i32_eq_of (by omega) (by omega)
    refine ⟨htr, ?_, ?_, ?_⟩ <;>
      simp [htr, frameStarts, u16Writes, headerWriter.write, Logbuffer.SetFrameType,
        Logbuffer.FrameLengthOrdered, hneg, show termOffset - termLength < 0 by omega,
        show ¬(termLength - termOffset < 0) by omega]

theorem claim1_witness :
    ((0 : Int) ≤ 100 ∧ (128 : Int) < 2 ^ 31) ∧
    handleEndOfLogCondition 5 130 ⟨7, 9⟩ 128 = (AppenderFailed, []) ∧
    handleEndOfLogCondition 5 128 ⟨7, 9⟩ 128 = (AppenderTripped, []) ∧
    (handleEndOfLogCondition 5 100 ⟨7, 9⟩ 128).1 = AppenderTripped ∧
    frameStarts (handleEndOfLogCondition 5 100 ⟨7, 9⟩ 128).2 = [100] :=
  ⟨by decide,
   (claim1_end_of_log_outcomes 5 130 128 ⟨7, 9⟩ (by decide) (by decide)).1 (by decide),
   (claim1_end_of_log_outcomes 5 128 128 ⟨7, 9⟩ (by decide) (by decide)).2.1 rfl,
   by
     have h := (claim1_end_of_log_outcomes 5 100 128 ⟨7, 9⟩ (by decide) (by decide)).2.2
       (by decide)
     exact ⟨by rw [h.1], h.2.1⟩⟩

/-- Claim C10: the padding frame written by `handleEndOfLogCondition` carries
flags byte `0xC0` (its only 8-bit store) and a fully populated data-style
header (version, term offset equal to the padding start, session ID, stream
ID, term ID), because its trace is exactly `headerWriter.write` followed by
overwriting the type field to pad and publishing the length: the 16-bit
stores are `TypeData` then `TypePad`, and the 32-bit header-field stores
carry the padding start, session, stream and term IDs. -/
theorem claim10_padding_frame_header (termID termOffset termLength sessionID streamID : Int)
    (h0 : 0 ≤ termOffset) (h2 : termLength < 2 ^ 31) (hlt : termOffset < termLength) :
    handleEndOfLogCondition termID termOffset ⟨sessionID, streamID⟩ termLength =
      (AppenderTripped,
       headerWriter.write ⟨sessionID, streamID⟩ termOffset (termLength - termOffset) termID
         ++ [Logbuffer.SetFrameType termOffset DataFrameHeader.TypePad,
             Logbuffer.FrameLengthOrdered termOffset (termLength - termOffset)]) ∧
    u8Writes (handleEndOfLogCondition termID termOffset ⟨sessionID, streamID⟩ termLength).2 =
      [(termOffset + DataFrameHeader.FlagsFieldOffset, 0xC0)] ∧
    u16Writes (handleEndOfLogCondition termID termOffset ⟨sessionID, streamID⟩ termLength).2 =
      [(termOffset + DataFrameHeader.TypeFieldOffset, DataFrameHeader.TypeData),
       (termOffset + DataFrameHeader.TypeFieldOffset, DataFrameHeader.TypePad)] ∧
    i32Writes (handleEndOfLogCondition termID termOffset ⟨sessionID, streamID⟩ termLength).2 =
      [(termOffset + DataFrameHeader.TermOffsetFieldOffset, termOffset),
       (termOffset + DataFrameHeader.SessionIDFieldOffset, sessionID),
       (termOffset + DataFrameHeader.StreamIDFieldOffset, streamID),
       (termOffset + DataFrameHeader.TermIDFieldOffset, termID)] ∧
    orderedWrites (handleEndOfLogCondition termID termOffset ⟨sessionID, streamID⟩ termLength).2 =
      [(termOffset, -(termLength - termOffset)), (termOffset, termLength - termOffset)] := by
  have htr := handleEOL_lt termID termOffset termLength ⟨sessionID, streamID⟩ h0 h2 hlt
  have hneg : i32 (termOffset - termLength) = termOffset - termLength :=
    i32_eq_of (by omega) (by omega)
  refine ⟨htr, ?_, ?_, ?_, ?_⟩ <;>
    simp [htr, u8Writes, u16Writes, i32Writes, orderedWrites, headerWriter.write,
      Logbuffer.SetFrameType, Logbuffer.FrameLengthOrdered, hneg, unfragmented]

theorem claim10_witness :
    ((0 : Int) ≤ 96 ∧ (128 : Int) < 2 ^ 31 ∧ (96 : Int) < 128) ∧
    u8Writes (handleEndOfLogCondition 5 96 ⟨7, 9⟩ 128).2 =
      [(96 + DataFrameHeader.FlagsFieldOffset, 0xC0)] ∧
    u16Writes (handleEndOfLogCondition 5 96 ⟨7, 9⟩ 128).2 =
      [(96 + DataFrameHeader.TypeFieldOffset, DataFrameHeader.TypeData),
       (96 + DataFrameHeader.TypeFieldOffset, DataFrameHeader.TypePad)] :=
  ⟨by decide,
   (claim10_padding_frame_header 5 96 128 7 9 (by decide) (by decide) (by decide)).2.1,
   (claim10_padding_frame_header 5 96 128 7 9 (by decide) (by decide) (by decide)).2.2.1⟩

theorem claim_success (a : Appender) (length : Int)
    (hlen0 : 0 ≤ length) (hlen1 : length + 63 < 2 ^ 31) (hcap : a.capacity < 2 ^ 31)
    (hfit : a.tail % 2 ^ 32 + Util.AlignInt32 (length + 32) 32 ≤ a.capacity) :
    a.Claim length =
      (⟨a.tail % 2 ^ 32 + Util.AlignInt32 (length + 32) 32, Logbuffer.TermID a.tail⟩,
       { a with tail := i64 (a.tail + Util.AlignInt32 (length + 32) 32) },
       .getAndAddTail (Util.AlignInt32 (length + 32) 32)
         :: a.headerWriter.write (a.tail % 2 ^ 32) (length + 32) (Logbuffer.TermID a.tail),
       some ⟨a.tail % 2 ^ 32, length + 32⟩) := by
  obtain ⟨hge, hlt, hnn⟩ := align32_bounds (v := length + 32) (by omega) (by omega)
  have hfl : i32 (length + 32) = length + 32 := i32_eq_of (by omega) (by omega)
  have hoff : i32 (a.tail % 2 ^ 32) = a.tail % 2 ^ 32 := i32_eq_of (by omega) (by omega)
  simp only [Appender.Claim, Appender.getAndAddRawTail, DataFrameHeader.Length,
    FrameAlignment, hfl, hoff]
  rw [if_neg (by omega)]

theorem unfrag_success (a : Appender) (srcOffset length : Int)
    (sup : Option (Int → Int → Int))
    (hlen0 : 0 ≤ length) (hlen1 : length + 63 < 2 ^ 31) (hcap : a.capacity < 2 ^ 31)
    (hfit : a.tail % 2 ^ 32 + Util.AlignInt32 (length + 32) 32 ≤ a.capacity) :
    a.AppendUnfragmentedMessage srcOffset length sup =
      (⟨a.tail % 2 ^ 32 + Util.AlignInt32 (length + 32) 32, Logbuffer.TermID a.tail⟩,
       { a with tail := i64 (a.tail + Util.AlignInt32 (length + 32) 32) },
       .getAndAddTail (Util.AlignInt32 (length + 32) 32)
         :: a.headerWriter.write (a.tail % 2 ^ 32) (length + 32) (Logbuffer.TermID a.tail)
         ++ [.putBytes (a.tail % 2 ^ 32 + 32) srcOffset length]
         ++ (match sup with
             | none => []
             | some f => [.putInt64 (a.tail % 2 ^ 32 + 24)
                 (f (a.tail % 2 ^ 32) (length + 32))])
         ++ [Logbuffer.FrameLengthOrdered (a.tail % 2 ^ 32) (length + 32)]) := by
  obtain ⟨hge, hlt, hnn⟩ := align32_bounds (v := length + 32) (by omega) (by omega)
  have hfl : i32 (length + 32) = length + 32 := i32_eq_of (by omega) (by omega)
  have hoff : i32 (a.tail % 2 ^ 32) = a.tail % 2 ^ 32 := i32_eq_of (by omega) (by omega)
  have hoff32 : i32 (a.tail % 2 ^ 32 + 32) = a.tail % 2 ^ 32 + 32 :=
    i32_eq_of (by omega) (by omega)
  have hoff24 : i32 (a.tail % 2 ^ 32 + 24) = a.tail % 2 ^ 32 + 24 :=
    i32_eq_of (by omega) (by omega)
  simp only [Appender.AppendUnfragmentedMessage, Appender.getAndAddRawTail,
    DataFrameHeader.Length, DataFrameHeader.ReservedValueFieldOffset, FrameAlignment,
    hfl, hoff, hoff32, hoff24]
  rw [if_neg (by omega)]

/-- Pairs each frame-start offset with its final flags byte, listing, per
frame, the header's initial `unfragmented` flags store followed by the
`FrameFlags` overwrite — the 8-bit store pattern of the fragmentation loop. -/
def flagPairs : List (Int × Nat) → List (Int × Nat)
  | [] => []
  | (o, fl) :: rest =>
    (o + DataFrameHeader.FlagsFieldOffset, unfragmented)
      :: (o + DataFrameHeader.FlagsFieldOffset, fl) :: flagPairs rest

theorem numFrames_eq_one {r m : Nat} (hr : 0 < r) (hrm : r ≤ m) : numFrames r m = 1 := by
  unfold numFrames
  exact Nat.div_eq_of_lt_le (by omega) (by omega)

theorem numFrames_step {r m : Nat} (hm : 0 < m) (h : m < r) :
    numFrames r m = numFrames (r - m) m + 1 := by
  unfold numFrames
  rw [show r + m - 1 = r - 1 + m by omega, Nat.add_div_right _ hm,
    show r - m + m - 1 = r - 1 by omega]

theorem numFrames_pos {r m : Nat} (hm : 0 < m) (hr : 0 < r) : 1 ≤ numFrames r m := by
  unfold numFrames
  rw [Nat.one_le_div_iff hm]
  omega

theorem fragFlagsList_ge2 (flags : Nat) {n : Nat} (h : 1 ≤ n) :
    fragFlagsList flags (n + 1) = flags :: fragFlagsList 0 n := by
  match n, h with
  | n + 1, _ => rfl

theorem fragFlagsList_zero {n : Nat} (h : 1 ≤ n) :
    fragFlagsList 0 n = List.replicate (n - 1) 0 ++ [endFrag] := by
  induction n with
  | zero => omega
  | succ k ih =>
    match k with
    | 0 => rfl
    | k + 1 =>
      rw [fragFlagsList_ge2 0 (by omega), ih (by omega)]
      simp [List.replicate_succ]

theorem fragFlagsList_closed {n : Nat} (h : 2 ≤ n) :
    fragFlagsList beginFrag n =
      beginFrag :: (List.replicate (n - 2) 0 ++ [endFrag]) := by
  match n, h with
  | n + 2, _ =>
    rw [show n + 2 = (n + 1) + 1 by ring, fragFlagsList_ge2 beginFrag (by omega),
      fragFlagsList_zero (by omega)]
    simp

theorem fragLoop_r_nonpos (header : headerWriter) (termID srcOffset length m : Int)
    (sup : Option (Int → Int → Int)) (fuel : Nat) (flags : Nat) (r offset : Int)
    (hr : r ≤ 0) (hfuel : 0 < fuel) :
    fragLoop header termID srcOffset length m sup fuel flags r offset =
      some (.done []) := by
  have h' : ¬r > 0 := by omega
  match fuel, hfuel with
  | fuel + 1, _ => simp [fragLoop, h']

theorem fragLoop_nil (header : headerWriter) (termID srcOffset length m : Int)
    (fuel : Nat) (flags : Nat) (r offset : Int) (hr : 0 < r) (hfuel : 0 < fuel) :
    fragLoop header termID srcOffset length m none fuel flags r offset =
      some (.nilSupplier
        (header.write offset (i32 (min r m + DataFrameHeader.Length)) termID
          ++ [.putBytes (i32 (offset + DataFrameHeader.Length))
                (i32 (srcOffset + i32 (length - r))) (min r m)]
          ++ [Logbuffer.FrameFlags offset
                (if r ≤ m then flags ||| endFrag else flags)])) := by
  match fuel, hfuel with
  | fuel + 1, _ => simp [fragLoop, hr]

theorem fragLoop_done (header : headerWriter) (termID srcOffset length m : Int)
    (f : Int → Int → Int) (hm0 : 0 < m) (hm1 : m + 64 < 2 ^ 31) (fuel : Nat) :
    ∀ (r offset : Int) (flags : Nat), 0 < r → r < 2 ^ 31 → r.toNat < fuel →
    ∃ evs, fragLoop header termID srcOffset length m (some f) fuel flags r offset =
        some (.done evs) ∧
      (payloadLens evs).sum = r ∧
      (payloadLens evs).length = numFrames r.toNat m.toNat ∧
      (frameStarts evs).length = numFrames r.toNat m.toNat ∧
      u8Writes evs =
        flagPairs ((frameStarts evs).zip
          (fragFlagsList flags (numFrames r.toNat m.toNat))) ∧
      tailAdds evs = [] ∧ tailSets evs = [] := by
  induction fuel with
  | zero => intro r offset flags h1 h2 h3; omega
  | succ fuel ih =>
    intro r offset flags hr0 hr31 hfuel
    have hminlb : 0 < min r m := lt_min hr0 hm0
    have hminub : min r m ≤ m := min_le_right r m
    have hminlr : min r m ≤ r := min_le_left r m
    have hL : i32 (min r m + DataFrameHeader.Length) = min r m + 32 := by
      simp only [DataFrameHeader.Length]
      exact i32_eq_of (by omega) (by omega)
    have hLneg : i32 (-(i32 (min r m + DataFrameHeader.Length))) < 0 := by
      rw [hL, i32_eq_of (x := -(min r m + 32)) (by omega) (by omega)]
      omega
    have hLpos : ¬ i32 (min r m + DataFrameHeader.Length) < 0 := by
      rw [hL]; omega
    by_cases hrm : r ≤ m
    · -- last fragment: bytesToWrite = r, the loop then terminates
      have hmin : min r m = r := min_eq_left hrm
      rw [hmin] at hL hLneg hLpos
      have hrec : ∀ o : Int,
          fragLoop header termID srcOffset length m (some f) fuel 0
            (i32 0) o = some (.done []) := fun o =>
        fragLoop_r_nonpos header termID srcOffset length m (some f) fuel 0 _ o
          (by simp [i32]) (by omega)
      have heq : fragLoop header termID srcOffset length m (some f) (fuel + 1)
          flags r offset =
          some (.done
            ((header.write offset (i32 (r + DataFrameHeader.Length)) termID
                ++ [Ev.putBytes (i32 (offset + DataFrameHeader.Length))
                      (i32 (srcOffset + i32 (length - r))) r]
                ++ [Logbuffer.FrameFlags offset (flags ||| endFrag)])
              ++ [Ev.putInt64 (i32 (offset + DataFrameHeader.ReservedValueFieldOffset))
                    (f offset (i32 (r + DataFrameHeader.Length))),
                  Logbuffer.FrameLengthOrdered offset
                    (i32 (r + DataFrameHeader.Length))])) := by
        simp [fragLoop, hr0, hrec, hmin, hrm]
      refine ⟨_, heq, ?_, ?_, ?_, ?_, ?_, ?_⟩
      · simp [payloadLens, headerWriter.write, Logbuffer.FrameFlags,
          Logbuffer.FrameLengthOrdered]
      · simp [payloadLens, headerWriter.write, Logbuffer.FrameFlags,
          Logbuffer.FrameLengthOrdered, numFrames_eq_one (by omega) (by omega : r.toNat ≤ m.toNat)]
      · simp [frameStarts, headerWriter.write, Logbuffer.FrameFlags,
          Logbuffer.FrameLengthOrdered, hLneg, hLpos,
          numFrames_eq_one (by omega) (by omega : r.toNat ≤ m.toNat)]
      · simp [u8Writes, frameStarts, headerWriter.write, Logbuffer.FrameFlags,
          Logbuffer.FrameLengthOrdered, hLneg, hLpos, flagPairs, fragFlagsList,
          numFrames_eq_one (by omega) (by omega : r.toNat ≤ m.toNat)]
      · simp [tailAdds, headerWriter.write, Logbuffer.FrameFlags,
          Logbuffer.FrameLengthOrdered]
      · simp [tailSets, headerWriter.write, Logbuffer.FrameFlags,
          Logbuffer.FrameLengthOrdered]
    · -- a full fragment of m payload bytes, then the loop continues
      have hlt : m < r := lt_of_not_le hrm
      have hmin : min r m = m := min_eq_right (le_of_lt hlt)
      have harg : i32 (r - min r m) = r - m := by
        rw [hmin]; exact i32_eq_of (by omega) (by omega)
      obtain ⟨evs', heq', hsum', hlen', hfs', hu8', hta', hts'⟩ :=
        ih (i32 (r - min r m))
          (i32 (offset + Util.AlignInt32 (i32 (min r m + DataFrameHeader.Length))
            FrameAlignment)) 0
          (by rw [harg]; omega) (by rw [harg]; omega) (by rw [harg]; omega)
      rw [harg] at hsum' hlen' hfs' hu8'
      simp only [payloadLens, frameStarts, u8Writes, tailAdds,
        tailSets] at hsum' hlen' hfs' hu8' hta' hts'
      have hnat : (r - m).toNat = r.toNat - m.toNat := by omega
      have hnum : numFrames r.toNat m.toNat = numFrames (r - m).toNat m.toNat + 1 := by
        rw [hnat]; exact numFrames_step (by omega) (by omega)
      have hnum1 : 1 ≤ numFrames (r - m).toNat m.toNat :=
        numFrames_pos (by omega) (by omega)
      have heq : fragLoop header termID srcOffset length m (some f) (fuel + 1)
          flags r offset =
          some (.done
            (((header.write offset (i32 (min r m + DataFrameHeader.Length)) termID
                ++ [Ev.putBytes (i32 (offset + DataFrameHeader.Length))
                      (i32 (srcOffset + i32 (length - r))) (min r m)]
                ++ [Logbuffer.FrameFlags offset
                      (if r ≤ m then flags ||| endFrag else flags)])
              ++ [Ev.putInt64 (i32 (offset + DataFrameHeader.ReservedValueFieldOffset))
                    (f offset (i32 (min r m + DataFrameHeader.Length))),
                  Logbuffer.FrameLengthOrdered offset
                    (i32 (min r m + DataFrameHeader.Length))])
              ++ evs')) := by
        simp [fragLoop, hr0, heq']
      refine ⟨_, heq, ?_, ?_, ?_, ?_, ?_, ?_⟩
      · simp [payloadLens, headerWriter.write, Logbuffer.FrameFlags,
          Logbuffer.FrameLengthOrdered, hmin, hsum']
      · simp [payloadLens, headerWriter.write, Logbuffer.FrameFlags,
          Logbuffer.FrameLengthOrdered, hmin, hlen', hnum]
      · simp [frameStarts, headerWriter.write, Logbuffer.FrameFlags,
          Logbuffer.FrameLengthOrdered, hLneg, hLpos, hfs', hnum]
      · rw [hnum, fragFlagsList_ge2 flags hnum1]
        simp [u8Writes, frameStarts, headerWriter.write, Logbuffer.FrameFlags,
          Logbuffer.FrameLengthOrdered, hLneg, hLpos, hrm, flagPairs, hu8']
      · simp [tailAdds, headerWriter.write, Logbuffer.FrameFlags,
          Logbuffer.FrameLengthOrdered, hta']
      · simp [tailSets, headerWriter.write, Logbuffer.FrameFlags,
          Logbuffer.FrameLengthOrdered, hts']

theorem handleEOL_no_tail (termID termOffset : Int) (header : headerWriter)
    (termLength : Int) :
    tailAdds (handleEndOfLogCondition termID termOffset header termLength).2 = [] ∧
    tailSets (handleEndOfLogCondition termID termOffset header termLength).2 = [] := by
  unfold handleEndOfLogCondition
  split_ifs <;> simp [tailAdds, tailSets, headerWriter.write, Logbuffer.SetFrameType,
    Logbuffer.FrameLengthOrdered]

theorem frag_required_eq (length m R : Int) (hm0 : 0 < m) (hm1 : m + 64 < 2 ^ 31)
    (hl0 : 0 ≤ length)
    (hR : R = length.tdiv m * (m + DataFrameHeader.Length)
      + (if 0 < length.tmod m then
          Util.AlignInt32 (length.tmod m + DataFrameHeader.Length) FrameAlignment
        else 0))
    (hreq : R < 2 ^ 31) :
    i32 (i32 (length.tdiv m * i32 (m + DataFrameHeader.Length)) +
      (if length.tmod m > 0 then
        Util.AlignInt32 (i32 (length.tmod m + DataFrameHeader.Length)) FrameAlignment
      else 0)) = R ∧ 0 ≤ R := by
  simp only [DataFrameHeader.Length, FrameAlignment] at hR ⊢
  have htd : 0 ≤ length.tdiv m := Int.tdiv_nonneg hl0 (le_of_lt hm0)
  have htm0 : 0 ≤ length.tmod m := Int.tmod_nonneg _ hl0
  have htm1 : length.tmod m < m := Int.tmod_lt_of_pos length hm0
  have hM : i32 (m + 32) = m + 32 := i32_eq_of (by omega) (by omega)
  have hM2 : i32 (length.tmod m + 32) = length.tmod m + 32 :=
    i32_eq_of (by omega) (by omega)
  rw [hM, hM2]
  by_cases hrem : 0 < length.tmod m
  · obtain ⟨ha1, ha2, ha3⟩ := align32_bounds (v := length.tmod m + 32)
      (by omega) (by omega)
    rw [if_pos hrem] at hR ⊢
    have hprod : 0 ≤ length.tdiv m * (m + 32) :=
      mul_nonneg htd (by omega)
    rw [i32_eq_of (x := length.tdiv m * (m + 32)) (by omega) (by omega),
      i32_eq_of (by omega) (by omega), ← hR]
    omega
  · rw [if_neg hrem] at hR ⊢
    have hprod : 0 ≤ length.tdiv m * (m + 32) :=
      mul_nonneg htd (by omega)
    rw [i32_eq_of (x := length.tdiv m * (m + 32)) (by omega) (by omega),
      i32_eq_of (by omega) (by omega), ← hR]
    omega

theorem appendFrag_success (a : Appender) (srcOffset length m R : Int)
    (f : Int → Int → Int)
    (hm0 : 0 < m) (hm1 : m + 64 < 2 ^ 31) (hl0 : 0 < length) (hl1 : length < 2 ^ 31)
    (hR : R = length.tdiv m * (m + DataFrameHeader.Length)
      + (if 0 < length.tmod m then
          Util.AlignInt32 (length.tmod m + DataFrameHeader.Length) FrameAlignment
        else 0))
    (hreq : R < 2 ^ 31) (hfit : a.tail % 2 ^ 32 + R ≤ a.capacity) :
    ∃ evs,
      a.AppendFragmentedMessage srcOffset length m (some f) =
        some (⟨a.tail % 2 ^ 32 + R, Logbuffer.TermID a.tail⟩,
          { a with tail := i64 (a.tail + R) }, .getAndAddTail R :: evs, false) ∧
      (payloadLens evs).sum = length ∧
      (payloadLens evs).length = numFrames length.toNat m.toNat ∧
      (frameStarts evs).length = numFrames length.toNat m.toNat ∧
      u8Writes evs = flagPairs ((frameStarts evs).zip
        (fragFlagsList beginFrag (numFrames length.toNat m.toNat))) ∧
      tailAdds evs = [] ∧ tailSets evs = [] := by
  obtain ⟨hReq, hR0⟩ := frag_required_eq length m R hm0 hm1 (le_of_lt hl0) hR hreq
  obtain ⟨evs, heqL, hsum, hlen, hfs, hu8, hta, hts⟩ :=
    fragLoop_done a.headerWriter (Logbuffer.TermID a.tail) srcOffset length m f
      hm0 hm1 (length.toNat + 1) length (i32 (a.tail % 2 ^ 32)) beginFrag
      hl0 hl1 (by omega)
  refine ⟨evs, ?_, hsum, hlen, hfs, hu8, hta, hts⟩
  simp only [Appender.AppendFragmentedMessage, Appender.getAndAddRawTail]
  rw [if_neg (by omega : ¬m = 0), hReq, if_neg (by omega : ¬a.tail % 2 ^ 32 + R > a.capacity),
    heqL]

theorem appendFrag_tail (a : Appender) (srcOffset length m R : Int)
    (sup : Option (Int → Int → Int))
    (hm0 : 0 < m) (hm1 : m + 64 < 2 ^ 31) (hl0 : 0 < length) (hl1 : length < 2 ^ 31)
    (hR : R = length.tdiv m * (m + DataFrameHeader.Length)
      + (if 0 < length.tmod m then
          Util.AlignInt32 (length.tmod m + DataFrameHeader.Length) FrameAlignment
        else 0))
    (hreq : R < 2 ^ 31) :
    ∃ res a2 evs b,
      a.AppendFragmentedMessage srcOffset length m sup =
        some (res, a2, .getAndAddTail R :: evs, b) ∧
      tailAdds evs = [] ∧ tailSets evs = [] ∧
      a2.tail = i64 (a.tail + R) ∧ 0 ≤ R := by
  obtain ⟨hReq, hR0⟩ := frag_required_eq length m R hm0 hm1 (le_of_lt hl0) hR hreq
  by_cases hfit : a.tail % 2 ^ 32 + R > a.capacity
  · have heq2 : a.AppendFragmentedMessage srcOffset length m sup =
        some (⟨(handleEndOfLogCondition (Logbuffer.TermID a.tail) (i32 (a.tail % 2 ^ 32))
            a.headerWriter a.capacity).1, Logbuffer.TermID a.tail⟩,
          { a with tail := i64 (a.tail + R) },
          .getAndAddTail R :: (handleEndOfLogCondition (Logbuffer.TermID a.tail)
            (i32 (a.tail % 2 ^ 32)) a.headerWriter a.capacity).2, false) := by
      simp only [Appender.AppendFragmentedMessage, Appender.getAndAddRawTail]
      rw [if_neg (by omega : ¬m = 0), hReq, if_pos hfit]
    exact ⟨_, _, _, _, heq2, (handleEOL_no_tail _ _ _ _).1, (handleEOL_no_tail _ _ _ _).2,
      rfl, hR0⟩
  · match sup with
    | some f =>
      obtain ⟨evs, heq, -, -, -, -, hta, hts⟩ :=
        appendFrag_success a srcOffset length m R f hm0 hm1 hl0 hl1 hR hreq (by omega)
      exact ⟨_, _, evs, false, heq, hta, hts, rfl, hR0⟩
    | none =>
      have heq2 : a.AppendFragmentedMessage srcOffset length m none =
          some (⟨a.tail % 2 ^ 32 + R, Logbuffer.TermID a.tail⟩,
            { a with tail := i64 (a.tail + R) },
            .getAndAddTail R ::
              (a.headerWriter.write (i32 (a.tail % 2 ^ 32))
                  (i32 (min length m + DataFrameHeader.Length)) (Logbuffer.TermID a.tail)
                ++ [.putBytes (i32 (i32 (a.tail % 2 ^ 32) + DataFrameHeader.Length))
                      (i32 (srcOffset + i32 (length - length))) (min length m)]
                ++ [Logbuffer.FrameFlags (i32 (a.tail % 2 ^ 32))
                      (if length ≤ m then beginFrag ||| endFrag else beginFrag)]),
            true) := by
        simp only [Appender.AppendFragmentedMessage, Appender.getAndAddRawTail]
        rw [if_neg (by omega : ¬m = 0), hReq,
          if_neg (by omega : ¬a.tail % 2 ^ 32 + R > a.capacity),
          fragLoop_nil a.headerWriter (Logbuffer.TermID a.tail) srcOffset length m
            (length.toNat + 1) beginFrag length (i32 (a.tail % 2 ^ 32)) hl0 (by omega)]
      refine ⟨_, _, _, _, heq2, ?_, ?_, rfl, hR0⟩
      · simp [tailAdds, headerWriter.write, Logbuffer.FrameFlags]
      · simp [tailSets, headerWriter.write, Logbuffer.FrameFlags]

/-- Claim C2: for every append operation (`Claim`, `AppendUnfragmentedMessage`,
`AppendFragmentedMessage`) whose reservation fits, the result's `termID` is
the high 32 bits of the pre-addition raw tail returned by the fetch-and-add
(which is the appender's tail before the call), and the result's `termOffset`
is the low 32 bits of that raw tail plus the aligned (resp. required) length —
the offset immediately after the just-written frame(s). -/
theorem claim2_reservation_result (a : Appender) (srcOffset length m R : Int)
    (f : Int → Int → Int) (sup : Option (Int → Int → Int))
    (hlen0 : 0 < length) (hlen1 : length + 63 < 2 ^ 31) (hcap : a.capacity < 2 ^ 31)
    (hm0 : 0 < m) (hm1 : m + 64 < 2 ^ 31)
    (hR : R = length.tdiv m * (m + DataFrameHeader.Length)
      + (if 0 < length.tmod m then
          Util.AlignInt32 (length.tmod m + DataFrameHeader.Length) FrameAlignment
        else 0))
    (hreq : R < 2 ^ 31) :
    (∀ al : Int, (a.getAndAddRawTail al).1 = a.tail) ∧
    (a.tail % 2 ^ 32 + Util.AlignInt32 (length + 32) 32 ≤ a.capacity →
      (a.Claim length).1 =
        ⟨a.tail % 2 ^ 32 + Util.AlignInt32 (length + 32) 32, Logbuffer.TermID a.tail⟩ ∧
      (a.AppendUnfragmentedMessage srcOffset length sup).1 =
        ⟨a.tail % 2 ^ 32 + Util.AlignInt32 (length + 32) 32, Logbuffer.TermID a.tail⟩) ∧
    (a.tail % 2 ^ 32 + R ≤ a.capacity →
      ∃ a2 evs,
        a.AppendFragmentedMessage srcOffset length m (some f) =
          some (⟨a.tail % 2 ^ 32 + R, Logbuffer.TermID a.tail⟩, a2, evs, false)) := by
  refine ⟨fun al => rfl, fun hfit => ?_, fun hfit => ?_⟩
  · rw [claim_success a length (by omega) hlen1 hcap hfit,
      unfrag_success a srcOffset length sup (by omega) hlen1 hcap hfit]
    exact ⟨rfl, rfl⟩
  · obtain ⟨evs, heq, -⟩ := appendFrag_success a srcOffset length m R f
      hm0 hm1 hlen0 (by omega) hR hreq hfit
    exact ⟨_, _, heq⟩

theorem claim2_witness :
    ((0 : Int) < 100 ∧
      (0 : Int) % 2 ^ 32 + Util.AlignInt32 (100 + 32) 32 ≤ 1024 ∧
      (0 : Int) % 2 ^ 32 + 224 ≤ 1024) ∧
    ((⟨0, 1024, ⟨7, 9⟩⟩ : Appender).Claim 100).1 =
      ⟨(0 : Int) % 2 ^ 32 + Util.AlignInt32 (100 + 32) 32, Logbuffer.TermID 0⟩ ∧
    (∃ a2 evs,
      (⟨0, 1024, ⟨7, 9⟩⟩ : Appender).AppendFragmentedMessage 0 100 48
          (some fun _ _ => 0) =
        some (⟨(0 : Int) % 2 ^ 32 + 224, Logbuffer.TermID 0⟩, a2, evs, false)) := by
  have h := claim2_reservation_result ⟨0, 1024, ⟨7, 9⟩⟩ 0 100 48 224 (fun _ _ => 0)
    none (by decide) (by decide) (by decide) (by decide) (by decide) (by decide)
    (by decide)
  exact ⟨by decide, (h.2.1 (by decide)).1, h.2.2 (by decide)⟩

/-- Claim C3: an append whose required aligned length exactly equals the
remaining space succeeds normally — no trip, no failure, the frame(s) are
written — and the returned `termOffset` equals the term capacity exactly.
For `Claim` and `AppendUnfragmentedMessage` the full success trace is
produced (header written, claim handle handed out resp. payload copied and
length published); for `AppendFragmentedMessage` the fragments are written
(their payloads sum to `length`). -/
theorem claim3_exact_fit (a : Appender) (srcOffset length m R : Int)
    (f : Int → Int → Int) (sup : Option (Int → Int → Int))
    (hlen0 : 0 < length) (hlen1 : length + 63 < 2 ^ 31) (hcap : a.capacity < 2 ^ 31)
    (hm0 : 0 < m) (hm1 : m + 64 < 2 ^ 31)
    (hR : R = length.tdiv m * (m + DataFrameHeader.Length)
      + (if 0 < length.tmod m then
          Util.AlignInt32 (length.tmod m + DataFrameHeader.Length) FrameAlignment
        else 0))
    (hreq : R < 2 ^ 31) :
    (a.tail % 2 ^ 32 + Util.AlignInt32 (length + 32) 32 = a.capacity →
      a.Claim length =
        (⟨a.capacity, Logbuffer.TermID a.tail⟩,
         { a with tail := i64 (a.tail + Util.AlignInt32 (length + 32) 32) },
         .getAndAddTail (Util.AlignInt32 (length + 32) 32)
           :: a.headerWriter.write (a.tail % 2 ^ 32) (length + 32)
                (Logbuffer.TermID a.tail),
         some ⟨a.tail % 2 ^ 32, length + 32⟩) ∧
      (a.AppendUnfragmentedMessage srcOffset length sup).1 =
        ⟨a.capacity, Logbuffer.TermID a.tail⟩) ∧
    (a.tail % 2 ^ 32 + R = a.capacity →
      ∃ a2 evs,
        a.AppendFragmentedMessage srcOffset length m (some f) =
          some (⟨a.capacity, Logbuffer.TermID a.tail⟩, a2, .getAndAddTail R :: evs,
            false) ∧
        (payloadLens evs).sum = length) := by
  constructor
  · intro hfit
    rw [claim_success a length (by omega) hlen1 hcap (le_of_eq hfit),
      unfrag_success a srcOffset length sup (by omega) hlen1 hcap (le_of_eq hfit), hfit]
    exact ⟨rfl, rfl⟩
  · intro hfit
    obtain ⟨evs, heq, hsum, -⟩ := appendFrag_success a srcOffset length m R f
      hm0 hm1 hlen0 (by omega) hR hreq (le_of_eq hfit)
    rw [hfit] at heq
    exact ⟨_, evs, heq, hsum⟩

theorem claim3_witness :
    ((64 : Int) % 2 ^ 32 + Util.AlignInt32 (10 + 32) 32 = 128 ∧
      (0 : Int) % 2 ^ 32 + 224 = 224) ∧
    ((⟨64, 128, ⟨7, 9⟩⟩ : Appender).AppendUnfragmentedMessage 0 10 none).1 =
      ⟨128, Logbuffer.TermID 64⟩ ∧
    (∃ a2 evs,
      (⟨0, 224, ⟨7, 9⟩⟩ : Appender).AppendFragmentedMessage 0 100 48
          (some fun _ _ => 0) =
        some (⟨224, Logbuffer.TermID 0⟩, a2, .getAndAddTail 224 :: evs, false) ∧
      (payloadLens evs).sum = 100) := by
  refine ⟨by decide, ?_, ?_⟩
  · exact ((claim3_exact_fit ⟨64, 128, ⟨7, 9⟩⟩ 0 10 48 64 (fun _ _ => 0) none
      (by decide) (by decide) (by decide) (by decide) (by decide) (by decide)
      (by decide)).1 (by decide)).2
  · exact (claim3_exact_fit ⟨0, 224, ⟨7, 9⟩⟩ 0 100 48 224 (fun _ _ => 0) none
      (by decide) (by decide) (by decide) (by decide) (by decide) (by decide)
      (by decide)).2 (by decide)

/-- Claim C4: for `0 < maxPayloadLength < length` and an in-bounds
reservation, `AppendFragmentedMessage` writes exactly
`⌈length / maxPayloadLength⌉` frames whose payload lengths sum to `length`;
the first frame's flags byte is `beginFrag` (begin bit set, end bit clear),
the last frame's is `endFrag`, and every middle frame's is `0` — each frame's
flags field is first written as `unfragmented` by the header writer and then
overwritten by `FrameFlags` with the fragment's flags byte, as the complete
8-bit store list shows. -/
theorem claim4_fragmentation (a : Appender) (srcOffset length m R : Int)
    (f : Int → Int → Int)
    (hm0 : 0 < m) (hmlt : m < length) (hm1 : m + 64 < 2 ^ 31) (hl1 : length < 2 ^ 31)
    (hR : R = length.tdiv m * (m + DataFrameHeader.Length)
      + (if 0 < length.tmod m then
          Util.AlignInt32 (length.tmod m + DataFrameHeader.Length) FrameAlignment
        else 0))
    (hreq : R < 2 ^ 31) (hfit : a.tail % 2 ^ 32 + R ≤ a.capacity) :
    ∃ a2 evs,
      a.AppendFragmentedMessage srcOffset length m (some f) =
        some (⟨a.tail % 2 ^ 32 + R, Logbuffer.TermID a.tail⟩, a2,
          .getAndAddTail R :: evs, false) ∧
      (payloadLens evs).length = numFrames length.toNat m.toNat ∧
      numFrames length.toNat m.toNat = (length.toNat + m.toNat - 1) / m.toNat ∧
      2 ≤ numFrames length.toNat m.toNat ∧
      (payloadLens evs).sum = length ∧
      (frameStarts evs).length = numFrames length.toNat m.toNat ∧
      u8Writes evs = flagPairs ((frameStarts evs).zip
        (beginFrag ::
          (List.replicate (numFrames length.toNat m.toNat - 2) 0 ++ [endFrag]))) := by
  obtain ⟨evs, heq, hsum, hlen, hfs, hu8, -, -⟩ := appendFrag_success a srcOffset
    length m R f hm0 hm1 (by omega) hl1 hR hreq hfit
  have h2 : 2 ≤ numFrames length.toNat m.toNat := by
    unfold numFrames
    rw [Nat.le_div_iff_mul_le (by omega)]
    omega
  rw [fragFlagsList_closed h2] at hu8
  exact ⟨_, evs, heq, hlen, rfl, h2, hsum, hfs, hu8⟩

theorem claim4_witness :
    ((0 : Int) < 48 ∧ (48 : Int) < 100 ∧ (0 : Int) % 2 ^ 32 + 224 ≤ 1024) ∧
    ∃ a2 evs,
      (⟨0, 1024, ⟨7, 9⟩⟩ : Appender).AppendFragmentedMessage 0 100 48
          (some fun _ _ => 0) =
        some (⟨(0 : Int) % 2 ^ 32 + 224, Logbuffer.TermID 0⟩, a2,
          .getAndAddTail 224 :: evs, false) ∧
      (payloadLens evs).length = numFrames 100 48 ∧
      numFrames 100 48 = (100 + 48 - 1) / 48 ∧
      2 ≤ numFrames 100 48 ∧
      (payloadLens evs).sum = 100 ∧
      (frameStarts evs).length = numFrames 100 48 ∧
      u8Writes evs = flagPairs ((frameStarts evs).zip
        (beginFrag :: (List.replicate (numFrames 100 48 - 2) 0 ++ [endFrag]))) :=
  ⟨by decide,
   claim4_fragmentation ⟨0, 1024, ⟨7, 9⟩⟩ 0 100 48 224 (fun _ _ => 0) (by decide)
     (by decide) (by decide) (by decide) (by decide) (by decide) (by decide)⟩

/-- Claim C5: `AppendFragmentedMessage` computes
`numMaxPayloads = length / maxPayloadLength` (truncated integer division),
`remainder = length % maxPayloadLength`, a last-frame aligned length that is
zero when the remainder is zero and `align(remainder + headerSize)` otherwise,
and reserves `numMaxPayloads * (maxPayloadLength + headerSize) +
lastFrameAlignedLength` in a single atomic fetch-and-add covering all
fragments: the tail-counter fetch-and-adds of the whole call are exactly
`[requiredLength]`, on every outcome and for any supplier. -/
theorem claim5_required_length (a : Appender) (srcOffset length m : Int)
    (sup : Option (Int → Int → Int))
    (hm0 : 0 < m) (hm1 : m + 64 < 2 ^ 31) (hl0 : 0 < length) (hl1 : length < 2 ^ 31)
    (hreq : length.tdiv m * (m + DataFrameHeader.Length)
      + (if 0 < length.tmod m then
          Util.AlignInt32 (length.tmod m + DataFrameHeader.Length) FrameAlignment
        else 0) < 2 ^ 31) :
    ∃ res a2 evs b,
      a.AppendFragmentedMessage srcOffset length m sup = some (res, a2, evs, b) ∧
      tailAdds evs =
        [length.tdiv m * (m + DataFrameHeader.Length)
          + (if 0 < length.tmod m then
              Util.AlignInt32 (length.tmod m + DataFrameHeader.Length) FrameAlignment
            else 0)] ∧
      a2.tail = i64 (a.tail +
        (length.tdiv m * (m + DataFrameHeader.Length)
          + (if 0 < length.tmod m then
              Util.AlignInt32 (length.tmod m + DataFrameHeader.Length) FrameAlignment
            else 0))) := by
  obtain ⟨res, a2, evs, b, heq, hta, -, htail, -⟩ := appendFrag_tail a srcOffset
    length m _ sup hm0 hm1 hl0 hl1 rfl hreq
  refine ⟨res, a2, _, b, heq, ?_, htail⟩
  simp only [tailAdds, List.filterMap_cons]
  simp only [tailAdds] at hta
  rw [hta]

theorem claim5_witness :
    ((0 : Int) < 48 ∧ (0 : Int) < 100) ∧
    ∃ res a2 evs b,
      (⟨0, 128, ⟨7, 9⟩⟩ : Appender).AppendFragmentedMessage 0 100 48 none =
        some (res, a2, evs, b) ∧
      tailAdds evs =
        [Int.tdiv 100 48 * (48 + DataFrameHeader.Length)
          + (if 0 < Int.tmod 100 48 then
              Util.AlignInt32 (Int.tmod 100 48 + DataFrameHeader.Length) FrameAlignment
            else 0)] ∧
      a2.tail = i64 (0 +
        (Int.tdiv 100 48 * (48 + DataFrameHeader.Length)
          + (if 0 < Int.tmod 100 48 then
              Util.AlignInt32 (Int.tmod 100 48 + DataFrameHeader.Length) FrameAlignment
            else 0))) :=
  ⟨by decide,
   claim5_required_length ⟨0, 128, ⟨7, 9⟩⟩ 0 100 48 none (by decide) (by decide)
     (by decide) (by decide) (by decide)⟩

/-- Claim C6: in `AppendUnfragmentedMessage`, a `nil` (`none`) supplier skips
the reserved-value computation and its 64-bit store entirely — the trace has
no `putInt64` event at all; a non-`nil` supplier is invoked with the term
buffer's offset and frame length and its result is stored at the
reserved-value field (`offset + 24`) before the frame length is published
(the store precedes the final ordered length store in the trace). -/
theorem claim6_reserved_value_supplier (a : Appender) (srcOffset length : Int)
    (f : Int → Int → Int)
    (hlen0 : 0 ≤ length) (hlen1 : length + 63 < 2 ^ 31) (hcap : a.capacity < 2 ^ 31)
    (hfit : a.tail % 2 ^ 32 + Util.AlignInt32 (length + 32) 32 ≤ a.capacity) :
    (a.AppendUnfragmentedMessage srcOffset length none).2.2 =
      .getAndAddTail (Util.AlignInt32 (length + 32) 32)
        :: a.headerWriter.write (a.tail % 2 ^ 32) (length + 32)
             (Logbuffer.TermID a.tail)
        ++ [.putBytes (a.tail % 2 ^ 32 + 32) srcOffset length]
        ++ [Logbuffer.FrameLengthOrdered (a.tail % 2 ^ 32) (length + 32)] ∧
    reservedStores (a.AppendUnfragmentedMessage srcOffset length none).2.2 = [] ∧
    (a.AppendUnfragmentedMessage srcOffset length (some f)).2.2 =
      .getAndAddTail (Util.AlignInt32 (length + 32) 32)
        :: a.headerWriter.write (a.tail % 2 ^ 32) (length + 32)
             (Logbuffer.TermID a.tail)
        ++ [.putBytes (a.tail % 2 ^ 32 + 32) srcOffset length]
        ++ [.putInt64 (a.tail % 2 ^ 32 + 24)
              (f (a.tail % 2 ^ 32) (length + 32)),
            Logbuffer.FrameLengthOrdered (a.tail % 2 ^ 32) (length + 32)] ∧
    reservedStores (a.AppendUnfragmentedMessage srcOffset length (some f)).2.2 =
      [(a.tail % 2 ^ 32 + 24, f (a.tail % 2 ^ 32) (length + 32))] := by
  have hn := unfrag_success a srcOffset length none hlen0 hlen1 hcap hfit
  have hs := unfrag_success a srcOffset length (some f) hlen0 hlen1 hcap hfit
  refine ⟨?_, ?_, ?_, ?_⟩ <;>
    simp [hn, hs, reservedStores, headerWriter.write, Logbuffer.FrameLengthOrdered]

theorem claim6_witness :
    ((0 : Int) ≤ 10 ∧ (0 : Int) % 2 ^ 32 + Util.AlignInt32 (10 + 32) 32 ≤ 128) ∧
    reservedStores
      ((⟨0, 128, ⟨7, 9⟩⟩ : Appender).AppendUnfragmentedMessage 3 10 none).2.2 = [] ∧
    reservedStores
      ((⟨0, 128, ⟨7, 9⟩⟩ : Appender).AppendUnfragmentedMessage 3 10
        (some fun _ _ => 5)).2.2 =
      [((0 : Int) % 2 ^ 32 + 24, 5)] :=
  ⟨by decide,
   (claim6_reserved_value_supplier ⟨0, 128, ⟨7, 9⟩⟩ 3 10 (fun _ _ => 5) (by decide)
     (by decide) (by decide) (by decide)).2.1,
   (claim6_reserved_value_supplier ⟨0, 128, ⟨7, 9⟩⟩ 3 10 (fun _ _ => 5) (by decide)
     (by decide) (by decide) (by decide)).2.2.2⟩

/-- Claim C7: for a successful unfragmented append the writes happen in this
program order: the frame-length field is first stored (ordered) as the
negated frame length, then version, flags, type, term offset, session ID,
stream ID and term ID, then the payload is copied and the reserved value
stored, and the final positive frame length is the last write of the trace,
an ordered (release) store; the ordered stores of the trace are exactly the
negated-length marker followed by the final positive length. -/
theorem claim7_write_order (a : Appender) (srcOffset length : Int)
    (f : Int → Int → Int)
    (hlen0 : 0 ≤ length) (hlen1 : length + 63 < 2 ^ 31) (hcap : a.capacity < 2 ^ 31)
    (hfit : a.tail % 2 ^ 32 + Util.AlignInt32 (length + 32) 32 ≤ a.capacity) :
    (a.AppendUnfragmentedMessage srcOffset length (some f)).2.2 =
      [.getAndAddTail (Util.AlignInt32 (length + 32) 32),
       .putInt32Ordered (a.tail % 2 ^ 32) (-(length + 32)),
       .putInt8 (a.tail % 2 ^ 32 + DataFrameHeader.VersionFieldOffset)
         DataFrameHeader.CurrentVersion,
       .putUInt8 (a.tail % 2 ^ 32 + DataFrameHeader.FlagsFieldOffset) unfragmented,
       .putUInt16 (a.tail % 2 ^ 32 + DataFrameHeader.TypeFieldOffset)
         DataFrameHeader.TypeData,
       .putInt32 (a.tail % 2 ^ 32 + DataFrameHeader.TermOffsetFieldOffset)
         (a.tail % 2 ^ 32),
       .putInt32 (a.tail % 2 ^ 32 + DataFrameHeader.SessionIDFieldOffset)
         a.headerWriter.sessionID,
       .putInt32 (a.tail % 2 ^ 32 + DataFrameHeader.StreamIDFieldOffset)
         a.headerWriter.streamID,
       .putInt32 (a.tail % 2 ^ 32 + DataFrameHeader.TermIDFieldOffset)
         (Logbuffer.TermID a.tail),
       .putBytes (a.tail % 2 ^ 32 + 32) srcOffset length,
       .putInt64 (a.tail % 2 ^ 32 + 24) (f (a.tail % 2 ^ 32) (length + 32)),
       .putInt32Ordered (a.tail % 2 ^ 32) (length + 32)] ∧
    (a.AppendUnfragmentedMessage srcOffset length (some f)).2.2.getLast? =
      some (.putInt32Ordered (a.tail % 2 ^ 32) (length + 32)) ∧
    orderedWrites (a.AppendUnfragmentedMessage srcOffset length (some f)).2.2 =
      [(a.tail % 2 ^ 32, -(length + 32)), (a.tail % 2 ^ 32, length + 32)] := by
  have hs := unfrag_success a srcOffset length (some f) hlen0 hlen1 hcap hfit
  have hneg : i32 (-32 + -length) = -32 + -length :=
    i32_eq_of (by omega) (by omega)
  refine ⟨?_, ?_, ?_⟩ <;>
    simp [hs, orderedWrites, headerWriter.write, Logbuffer.FrameLengthOrdered, hneg,
      show length + 32 ≠ 0 by omega]

theorem claim7_witness :
    ((0 : Int) ≤ 10 ∧ (0 : Int) % 2 ^ 32 + Util.AlignInt32 (10 + 32) 32 ≤ 128) ∧
    ((⟨0, 128, ⟨7, 9⟩⟩ : Appender).AppendUnfragmentedMessage 3 10
        (some fun _ _ => 5)).2.2.getLast? =
      some (.putInt32Ordered ((0 : Int) % 2 ^ 32) (10 + 32)) ∧
    orderedWrites ((⟨0, 128, ⟨7, 9⟩⟩ : Appender).AppendUnfragmentedMessage 3 10
        (some fun _ _ => 5)).2.2 =
      [((0 : Int) % 2 ^ 32, -(10 + 32)), ((0 : Int) % 2 ^ 32, 10 + 32)] :=
  ⟨by decide,
   (claim7_write_order ⟨0, 128, ⟨7, 9⟩⟩ 3 10 (fun _ _ => 5) (by decide) (by decide)
     (by decide) (by decide)).2.1,
   (claim7_write_order ⟨0, 128, ⟨7, 9⟩⟩ 3 10 (fun _ _ => 5) (by decide) (by decide)
     (by decide) (by decide)).2.2⟩

theorem tailAdds_cons_getAndAdd (n : Int) (tr : List Ev) :
    tailAdds (.getAndAddTail n :: tr) = n :: tailAdds tr := rfl

theorem tailSets_cons_getAndAdd (n : Int) (tr : List Ev) :
    tailSets (.getAndAddTail n :: tr) = tailSets tr := rfl

theorem claim_tail_effect (a : Appender) (length : Int)
    (hlen0 : 0 ≤ length) (hlen1 : length + 63 < 2 ^ 31) :
    tailAdds (a.Claim length).2.2.1 = [Util.AlignInt32 (length + 32) 32] ∧
    tailSets (a.Claim length).2.2.1 = [] ∧
    0 ≤ Util.AlignInt32 (length + 32) 32 ∧
    (a.Claim length).2.1.tail = i64 (a.tail + Util.AlignInt32 (length + 32) 32) ∧
    (a.Claim length).2.2.1.head? =
      some (.getAndAddTail (Util.AlignInt32 (length + 32) 32)) := by
  have hfl : i32 (length + 32) = length + 32 := i32_eq_of (by omega) (by omega)
  obtain ⟨-, -, hnn⟩ := align32_bounds (v := length + 32) (by omega) (by omega)
  have hne := handleEOL_no_tail (Logbuffer.TermID a.tail) (i32 (a.tail % 2 ^ 32))
    a.headerWriter a.capacity
  simp only [Appender.Claim, Appender.getAndAddRawTail, DataFrameHeader.Length,
    FrameAlignment, hfl]
  split_ifs with h
  · dsimp only
    exact ⟨by rw [tailAdds_cons_getAndAdd, hne.1], by rw [tailSets_cons_getAndAdd, hne.2],
      hnn, rfl, rfl⟩
  · exact ⟨rfl, rfl, hnn, rfl, rfl⟩

theorem unfrag_tail_effect (a : Appender) (srcOffset length : Int)
    (sup : Option (Int → Int → Int))
    (hlen0 : 0 ≤ length) (hlen1 : length + 63 < 2 ^ 31) :
    tailAdds (a.AppendUnfragmentedMessage srcOffset length sup).2.2 =
      [Util.AlignInt32 (length + 32) 32] ∧
    tailSets (a.AppendUnfragmentedMessage srcOffset length sup).2.2 = [] ∧
    (a.AppendUnfragmentedMessage srcOffset length sup).2.1.tail =
      i64 (a.tail + Util.AlignInt32 (length + 32) 32) ∧
    (a.AppendUnfragmentedMessage srcOffset length sup).2.2.head? =
      some (.getAndAddTail (Util.AlignInt32 (length + 32) 32)) := by
  have hfl : i32 (length + 32) = length + 32 := i32_eq_of (by omega) (by omega)
  have hne := handleEOL_no_tail (Logbuffer.TermID a.tail) (i32 (a.tail % 2 ^ 32))
    a.headerWriter a.capacity
  simp only [Appender.AppendUnfragmentedMessage, Appender.getAndAddRawTail,
    DataFrameHeader.Length, DataFrameHeader.ReservedValueFieldOffset,
    FrameAlignment, hfl]
  split_ifs with h
  · dsimp only
    exact ⟨by rw [tailAdds_cons_getAndAdd, hne.1], by rw [tailSets_cons_getAndAdd, hne.2],
      rfl, rfl⟩
  · match sup with
    | none => exact ⟨rfl, rfl, rfl, rfl⟩
    | some f => exact ⟨rfl, rfl, rfl, rfl⟩

/-- Claim C8: every append operation advances the tail counter by its full
aligned (resp. required) length in one fetch-and-add that is the first event
of its trace (before the term-boundary check writes anything), and the tail
is never decremented, rolled back or set afterwards — the tail fetch-and-add
list of the trace is exactly the one nonnegative amount, the tail-set list is
empty, and the new tail is the old tail plus that amount, with no hypothesis
that the operation stayed in bounds (so also when it returns
`AppenderTripped` or `AppenderFailed`). -/
theorem claim8_tail_never_rolled_back (a : Appender) (srcOffset length m : Int)
    (sup : Option (Int → Int → Int))
    (hl0 : 0 < length) (hlen1 : length + 63 < 2 ^ 31)
    (hm0 : 0 < m) (hm1 : m + 64 < 2 ^ 31)
    (hreq : length.tdiv m * (m + DataFrameHeader.Length)
      + (if 0 < length.tmod m then
          Util.AlignInt32 (length.tmod m + DataFrameHeader.Length) FrameAlignment
        else 0) < 2 ^ 31) :
    (tailAdds (a.Claim length).2.2.1 = [Util.AlignInt32 (length + 32) 32] ∧
     tailSets (a.Claim length).2.2.1 = [] ∧
     0 ≤ Util.AlignInt32 (length + 32) 32 ∧
     (a.Claim length).2.1.tail = i64 (a.tail + Util.AlignInt32 (length + 32) 32) ∧
     (a.Claim length).2.2.1.head? =
       some (.getAndAddTail (Util.AlignInt32 (length + 32) 32))) ∧
    (tailAdds (a.AppendUnfragmentedMessage srcOffset length sup).2.2 =
       [Util.AlignInt32 (length + 32) 32] ∧
     tailSets (a.AppendUnfragmentedMessage srcOffset length sup).2.2 = [] ∧
     (a.AppendUnfragmentedMessage srcOffset length sup).2.1.tail =
       i64 (a.tail + Util.AlignInt32 (length + 32) 32) ∧
     (a.AppendUnfragmentedMessage srcOffset length sup).2.2.head? =
       some (.getAndAddTail (Util.AlignInt32 (length + 32) 32))) ∧
    (∃ res a2 evs b R,
      a.AppendFragmentedMessage srcOffset length m sup = some (res, a2, evs, b) ∧
      tailAdds evs = [R] ∧ tailSets evs = [] ∧ 0 ≤ R ∧
      a2.tail = i64 (a.tail + R) ∧ evs.head? = some (.getAndAddTail R)) := by
  refine ⟨claim_tail_effect a length (by omega) hlen1,
    unfrag_tail_effect a srcOffset length sup (by omega) hlen1, ?_⟩
  obtain ⟨res, a2, evs, b, heq, hta, hts, htail, hR0⟩ := appendFrag_tail a srcOffset
    length m _ sup hm0 hm1 hl0 (by omega) rfl hreq
  simp only [tailAdds, tailSets] at hta hts
  refine ⟨res, a2, _, b, _, heq, ?_, ?_, hR0, htail, rfl⟩
  · simp only [tailAdds, List.filterMap_cons]
    rw [hta]
  · simp only [tailSets, List.filterMap_cons]
    rw [hts]

theorem claim8_witness :
    ((0 : Int) < 10 ∧ (128 : Int) % 2 ^ 32 + Util.AlignInt32 (10 + 32) 32 > 128) ∧
    tailAdds ((⟨128, 128, ⟨7, 9⟩⟩ : Appender).Claim 10).2.2.1 =
      [Util.AlignInt32 (10 + 32) 32] ∧
    ((⟨128, 128, ⟨7, 9⟩⟩ : Appender).Claim 10).2.1.tail =
      i64 (128 + Util.AlignInt32 (10 + 32) 32) ∧
    ((⟨128, 128, ⟨7, 9⟩⟩ : Appender).Claim 10).1.termOffset = AppenderTripped :=
  ⟨by decide,
   (claim8_tail_never_rolled_back ⟨128, 128, ⟨7, 9⟩⟩ 0 10 48 none (by decide)
     (by decide) (by decide) (by decide) (by decide)).1.1,
   (claim8_tail_never_rolled_back ⟨128, 128, ⟨7, 9⟩⟩ 0 10 48 none (by decide)
     (by decide) (by decide) (by decide) (by decide)).1.2.2.2.1,
   by decide⟩

/-- Claim C9: `AppendFragmentedMessage` invokes the reserved-value supplier
unconditionally in every loop iteration, with no nil check, so a `nil`
(`none`) supplier makes the fragmented path dereference nil and panic (the
model's `true` outcome flag) as soon as the reservation fits and there is a
fragment to write — unlike `AppendUnfragmentedMessage`, which checks for nil
and completes normally with the reserved-value store skipped. -/
theorem claim9_nil_supplier_panics (a : Appender) (srcOffset length m R : Int)
    (hm0 : 0 < m) (hm1 : m + 64 < 2 ^ 31) (hl0 : 0 < length)
    (hlen1 : length + 63 < 2 ^ 31) (hcap : a.capacity < 2 ^ 31)
    (hR : R = length.tdiv m * (m + DataFrameHeader.Length)
      + (if 0 < length.tmod m then
          Util.AlignInt32 (length.tmod m + DataFrameHeader.Length) FrameAlignment
        else 0))
    (hreq : R < 2 ^ 31) (hfitF : a.tail % 2 ^ 32 + R ≤ a.capacity)
    (hfitU : a.tail % 2 ^ 32 + Util.AlignInt32 (length + 32) 32 ≤ a.capacity) :
    (∃ res a2 evs,
      a.AppendFragmentedMessage srcOffset length m none = some (res, a2, evs, true)) ∧
    (a.AppendUnfragmentedMessage srcOffset length none).2.2 =
      .getAndAddTail (Util.AlignInt32 (length + 32) 32)
        :: a.headerWriter.write (a.tail % 2 ^ 32) (length + 32)
             (Logbuffer.TermID a.tail)
        ++ [.putBytes (a.tail % 2 ^ 32 + 32) srcOffset length]
        ++ [Logbuffer.FrameLengthOrdered (a.tail % 2 ^ 32) (length + 32)] ∧
    reservedStores (a.AppendUnfragmentedMessage srcOffset length none).2.2 = [] := by
  obtain ⟨hReq, hR0⟩ := frag_required_eq length m R hm0 hm1 (le_of_lt hl0) hR hreq
  have heq2 : a.AppendFragmentedMessage srcOffset length m none =
      some (⟨a.tail % 2 ^ 32 + R, Logbuffer.TermID a.tail⟩,
        { a with tail := i64 (a.tail + R) },
        .getAndAddTail R ::
          (a.headerWriter.write (i32 (a.tail % 2 ^ 32))
              (i32 (min length m + DataFrameHeader.Length)) (Logbuffer.TermID a.tail)
            ++ [.putBytes (i32 (i32 (a.tail % 2 ^ 32) + DataFrameHeader.Length))
                  (i32 (srcOffset + i32 (length - length))) (min length m)]
            ++ [Logbuffer.FrameFlags (i32 (a.tail % 2 ^ 32))
                  (if length ≤ m then beginFrag ||| endFrag else beginFrag)]),
        true) := by
    simp only [Appender.AppendFragmentedMessage, Appender.getAndAddRawTail]
    rw [if_neg (by omega : ¬m = 0), hReq,
      if_neg (by omega : ¬a.tail % 2 ^ 32 + R > a.capacity),
      fragLoop_nil a.headerWriter (Logbuffer.TermID a.tail) srcOffset length m
        (length.toNat + 1) beginFrag length (i32 (a.tail % 2 ^ 32)) hl0 (by omega)]
  have hn := unfrag_success a srcOffset length none (by omega) hlen1 hcap hfitU
  refine ⟨⟨_, _, _, heq2⟩, ?_, ?_⟩ <;>
    simp [hn, reservedStores, headerWriter.write, Logbuffer.FrameLengthOrdered]

theorem claim9_witness :
    ((0 : Int) < 100 ∧ (0 : Int) % 2 ^ 32 + 224 ≤ 1024) ∧
    (∃ res a2 evs,
      (⟨0, 1024, ⟨7, 9⟩⟩ : Appender).AppendFragmentedMessage 0 100 48 none =
        some (res, a2, evs, true)) ∧
    reservedStores
      ((⟨0, 1024, ⟨7, 9⟩⟩ : Appender).AppendUnfragmentedMessage 0 100 none).2.2 = [] :=
  ⟨by decide,
   (claim9_nil_supplier_panics ⟨0, 1024, ⟨7, 9⟩⟩ 0 100 48 224 (by decide) (by decide)
     (by decide) (by decide) (by decide) (by decide) (by decide) (by decide)
     (by decide)).1,
   (claim9_nil_supplier_panics ⟨0, 1024, ⟨7, 9⟩⟩ 0 100 48 224 (by decide) (by decide)
     (by decide) (by decide) (by decide) (by decide) (by decide) (by decide)
     (by decide)).2.2⟩

end AeronTerm
